import Mathlib

set_option maxHeartbeats 1000000

/-!
Shallow embedding of the membrane prompts-driver flow engine (src/index.ts).

The registry `state.flows : Record<string, Flow>` is modelled as an
association list in key insertion order (JS object keys are unique and
iterate in insertion order).  Each step's `result` promise is modelled as a
settle-once cell `PromState`; the `resolve`/`abort` closures of
`IO.inputText` become `promResolve`/`promReject` plus the status writes the
source performs around them.  Step and flow ids come from the external
opaque id generator, so they enter the model as parameters.
-/

namespace Prompts

inductive Status
  | notStarted
  | inProgress
  | done
  | aborted
deriving DecidableEq

inductive PromState
  | pending
  | resolvedP (v : String)
  | rejectedP (r : String)
deriving DecidableEq

inductive StepKind
  | input
deriving DecidableEq

structure FlowStep where
  id : String
  label : String
  kind : StepKind
  status : Status
  prom : PromState
deriving DecidableEq

structure Flow where
  title : String
  status : Status
  steps : List FlowStep
deriving DecidableEq

abbrev Flows := List (String × Flow)

def lookupFlow (fs : Flows) (c : String) : Option Flow :=
  (fs.find? (fun p => p.1 == c)).map (fun p => p.2)

def containsFlow (fs : Flows) (c : String) : Bool :=
  (lookupFlow fs c).isSome

def updFlow (fs : Flows) (c : String) (f : Flow → Flow) : Flows :=
  fs.map (fun p => if p.1 = c then (p.1, f p.2) else p)

/-- Settle-once resolution of the step promise: `res(text)` only takes
effect while the promise is pending. -/
def promResolve (p : PromState) (v : String) : PromState :=
  match p with
  | PromState.pending => PromState.resolvedP v
  | q => q

/-- Settle-once rejection of the step promise: `rej(reason)` only takes
effect while the promise is pending. -/
def promReject (p : PromState) (r : String) : PromState :=
  match p with
  | PromState.pending => PromState.rejectedP r
  | q => q

def mkInputStep (stepId label : String) : FlowStep :=
  { id := stepId, label := label, kind := StepKind.input,
    status := Status.notStarted, prom := PromState.pending }

/-- `io({title, context})`: `state.flows[context] ??= {title, status:
"not-started", steps: []}` — creates the entry only when absent. -/
def io (fs : Flows) (ctx title : String) : Flows :=
  if containsFlow fs ctx then fs
  else fs ++ [(ctx, { title := title, status := Status.notStarted, steps := [] })]

/-- `verifyFlow(context)` throws exactly when `!context || !(context in
state.flows)`; a JS string is falsy when `undefined` or empty. -/
def flowMissing (fs : Flows) (ctx : Option String) : Bool :=
  match ctx with
  | none => true
  | some c => c == "" || !(containsFlow fs c)

/-- `IO.inputText({label}, {obj})`: verifies the flow, then pushes a fresh
step in status `not-started` with a pending promise.  The generated step id
is a parameter (external id generator). -/
def inputText (fs : Flows) (ctx : Option String) (stepId label : String) :
    Flows × Except String Unit :=
  if flowMissing fs ctx then (fs, Except.error "Flow not started")
  else
    match ctx with
    | none => (fs, Except.error "Flow not started")
    | some c =>
      (updFlow fs c (fun fl => { fl with steps := fl.steps ++ [mkInputStep stepId label] }),
       Except.ok ())

/-- `IO.outputText`: verifies the flow and does nothing else. -/
def outputText (fs : Flows) (ctx : Option String) : Flows × Except String Unit :=
  if flowMissing fs ctx then (fs, Except.error "Flow not started")
  else (fs, Except.ok ())

/-- Effect of the timeout pass on one step it selects: `step.status =
"aborted"; step.abort("Timeout")`. -/
def abortStep (s : FlowStep) : FlowStep :=
  { s with status := Status.aborted, prom := promReject s.prom "Timeout" }

/-- `IO.timeout({context})`: no-op on an unknown flow; otherwise aborts
every step whose status is not `done` and, when that set was non-empty,
sets the flow status to `aborted`. -/
def timeout (fs : Flows) (c : String) : Flows :=
  if containsFlow fs c then
    updFlow fs c (fun fl =>
      { fl with
        steps := fl.steps.map (fun s => if s.status = Status.done then s else abortStep s),
        status :=
          if fl.steps.any (fun s => !(decide (s.status = Status.done))) then Status.aborted
          else fl.status })
  else fs

/-- `IO.end`: verifies the flow, then sets `flow.status = "done"`
unconditionally. -/
def endFlow (fs : Flows) (ctx : Option String) : Flows × Except String Unit :=
  if flowMissing fs ctx then (fs, Except.error "Flow not started")
  else
    match ctx with
    | none => (fs, Except.error "Flow not started")
    | some c => (updFlow fs c (fun fl => { fl with status := Status.done }), Except.ok ())

def updateFirst (l : List FlowStep) (p : FlowStep → Bool) (f : FlowStep → FlowStep) :
    List FlowStep :=
  match l with
  | [] => []
  | s :: rest => if p s then f s :: rest else s :: updateFirst rest p f

/-- Effect of invoking a step's `resolve(value)` closure: settle the
promise if still pending, then set the status of the step found by its
captured id to `done` (unconditionally — no terminality guard). -/
def settleStep (s : FlowStep) (v : String) : FlowStep :=
  { s with prom := promResolve s.prom v, status := Status.done }

def resolveStep (fs : Flows) (c sid v : String) : Flows :=
  updFlow fs c (fun fl =>
    { fl with steps := updateFirst fl.steps (fun s => s.id == sid) (fun s => settleStep s v) })

inductive StepView
  | abortedView (label : String)
  | doneView (label value : String)
  | formView (label stepId : String)
deriving DecidableEq

inductive StepRes
  | view (v : StepView)
  | failed
  | stuck
deriving DecidableEq

/-- `renderStep`: promotes a `not-started` step to `in-progress`, then
renders by status.  Rendering a `done` step awaits its promise: a rejected
promise makes the render throw (`failed`), a still-pending one never
completes (`stuck`). -/
def renderStep1 (s : FlowStep) : FlowStep × StepRes :=
  let s1 := if s.status = Status.notStarted then { s with status := Status.inProgress } else s
  match s1.status, s1.prom with
  | Status.aborted, _ => (s1, StepRes.view (StepView.abortedView s1.label))
  | Status.done, PromState.resolvedP v => (s1, StepRes.view (StepView.doneView s1.label v))
  | Status.done, PromState.rejectedP _ => (s1, StepRes.failed)
  | Status.done, PromState.pending => (s1, StepRes.stuck)
  | _, _ => (s1, StepRes.view (StepView.formView s1.label s1.id))

inductive RenderOut
  | ok (views : List StepView)
  | failed
  | stuck
deriving DecidableEq

/-- The `for (const step of flow.steps)` loop of `renderFlow`: processes
steps left to right; a throw or hang stops the loop, keeping the mutations
already made. -/
def renderSteps (l : List FlowStep) : List FlowStep × RenderOut :=
  match l with
  | [] => ([], RenderOut.ok [])
  | s :: rest =>
    let sr := renderStep1 s
    match sr.2 with
    | StepRes.view v =>
      let r2 := renderSteps rest
      (sr.1 :: r2.1,
        match r2.2 with
        | RenderOut.ok vs => RenderOut.ok (v :: vs)
        | RenderOut.failed => RenderOut.failed
        | RenderOut.stuck => RenderOut.stuck)
    | StepRes.failed => (sr.1 :: rest, RenderOut.failed)
    | StepRes.stuck => (sr.1 :: rest, RenderOut.stuck)

inductive Trailer
  | completed
  | abortedMsg
  | loading
  | stepForm (v : StepView)
  | noTrailer
deriving DecidableEq

inductive PageView
  | flowView (views : List StepView) (t : Trailer)
  | redirect (message url : String)
  | landing (entries : List (String × String × Status))
deriving DecidableEq

inductive Response
  | errorJson (error : String) (status : Nat)
  | page (v : PageView)
  | thrown
  | hung
deriving DecidableEq

def setInProgress (s : FlowStep) : FlowStep :=
  if s.status = Status.notStarted then { s with status := Status.inProgress } else s

/-- `renderNextStep`: finds the first `not-started` step; with none and a
non-done flow it emits the polling indicator; otherwise renders (and hence
mutates) the found step. -/
def renderNextStep (fs : Flows) (c : String) : Flows × Trailer :=
  match lookupFlow fs c with
  | none => (fs, Trailer.noTrailer)
  | some fl =>
    match fl.steps.find? (fun s => decide (s.status = Status.notStarted)) with
    | none =>
      if fl.status = Status.done then (fs, Trailer.noTrailer)
      else (fs, Trailer.loading)
    | some s =>
      (updFlow fs c (fun f2 =>
         { f2 with
           steps := updateFirst f2.steps (fun t => decide (t.status = Status.notStarted))
             (fun t => (renderStep1 t).1) }),
       match (renderStep1 s).2 with
       | StepRes.view w => Trailer.stepForm w
       | StepRes.failed => Trailer.noTrailer
       | StepRes.stuck => Trailer.noTrailer)

/-- `renderFlow(context)`: renders each step (mutating statuses), then a
status-dependent trailer; when every step is `done` and the flow is still
active it defers to `renderNextStep`. -/
def renderFlow (fs : Flows) (c : String) : Flows × Response :=
  match lookupFlow fs c with
  | none => (fs, Response.thrown)
  | some fl =>
    let r := renderSteps fl.steps
    let fs1 := updFlow fs c (fun f2 => { f2 with steps := r.1 })
    match r.2 with
    | RenderOut.failed => (fs1, Response.thrown)
    | RenderOut.stuck => (fs1, Response.hung)
    | RenderOut.ok views =>
      match fl.status with
      | Status.done => (fs1, Response.page (PageView.flowView views Trailer.completed))
      | Status.aborted => (fs1, Response.page (PageView.flowView views Trailer.abortedMsg))
      | _ =>
        if r.1.all (fun s => decide (s.status = Status.done)) then
          let nr := renderNextStep fs1 c
          (nr.1, Response.page (PageView.flowView views nr.2))
        else (fs1, Response.page (PageView.flowView views Trailer.noTrailer))

/-- An HTTP POST body, abstracted to the two observations the source makes
of it: `!body` (absent/empty, the `none` case at the call sites) and
`JSON.parse(body)?.value`.  `malformed` stands for a body on which
`JSON.parse` throws; `parsed v` carries the `value` field, `none` when it
is missing or falsy. -/
inductive BodyVal
  | malformed
  | parsed (value : Option String)
deriving DecidableEq

/-- `!value` is true for a missing value and for the empty string. -/
def usableValue (v2 : Option String) : Option String :=
  match v2 with
  | none => none
  | some v => if v = "" then none else some v

/-- `str.split("/")` on the character list of the string, with an
accumulator for the current piece. -/
def splitSlashAux : List Char → List Char → List String
  | [], acc => [String.mk acc.reverse]
  | c :: rest, acc =>
    if c = '/' then String.mk acc.reverse :: splitSlashAux rest []
    else splitSlashAux rest (c :: acc)

def splitSlash (s : String) : List String := splitSlashAux s.toList []

/-- `str.startsWith(pre)`. -/
def strStartsWith (s pre : String) : Bool :=
  s.toList.take pre.toList.length == pre.toList

/-- `path.split("/").slice(2)`. -/
def pathSegs (path : String) : List String :=
  (splitSlash path).drop 2

def findStep (fl : Flow) (sid? : Option String) : Option FlowStep :=
  match sid? with
  | none => none
  | some sid => fl.steps.find? (fun s => s.id == sid)

/-- The POST arm of the endpoint after the body-presence check; `none`
means fall-through (unknown flow or step) to the rest of the handler. -/
def postFlow (fs : Flows) (path : String) (b : BodyVal) : Option (Flows × Response) :=
  match (pathSegs path).get? 0 with
  | none => none
  | some c =>
    match lookupFlow fs c with
    | none => none
    | some fl =>
      match findStep fl ((pathSegs path).get? 1) with
      | none => none
      | some st =>
        match st.kind with
        | StepKind.input =>
          match b with
          | BodyVal.malformed => some (fs, Response.thrown)
          | BodyVal.parsed v2 =>
            match usableValue v2 with
            | none => some (fs, Response.errorJson "Value required" 400)
            | some v => some (renderFlow (resolveStep fs c st.id v) c)

def landingPage (fs : Flows) : Response :=
  Response.page (PageView.landing (fs.map (fun p => (p.1, p.2.title, p.2.status))))

def getFlow (fs : Flows) (path : String) : Flows × Response :=
  match (pathSegs path).get? 0 with
  | none => (fs, Response.page (PageView.redirect "Flow not found" "/"))
  | some c =>
    if containsFlow fs c then renderFlow fs c
    else (fs, Response.page (PageView.redirect "Flow not found" "/"))

/-- The HTTP `endpoint` resolver.  A POST that falls through its arm meets
the GET test with a POST method, so it reaches the landing page. -/
def endpoint (fs : Flows) (method path : String) (body : Option BodyVal) :
    Flows × Response :=
  if method == "POST" && strStartsWith path "/flow/" then
    match body with
    | none => (fs, Response.errorJson "Body required" 400)
    | some b =>
      match postFlow fs path b with
      | some r => r
      | none => (fs, landingPage fs)
  else if method == "GET" && strStartsWith path "/flow/" then
    getFlow fs path
  else (fs, landingPage fs)

/-- One externally triggerable operation of the system, used to reason
about arbitrary operation sequences. -/
inductive Op
  | opIo (ctx title : String)
  | opInput (ctx : Option String) (stepId label : String)
  | opOutput (ctx : Option String)
  | opEnd (ctx : Option String)
  | opTimeout (ctx : String)
  | opHttp (method path : String) (body : Option BodyVal)
deriving DecidableEq

def applyOp (fs : Flows) (op : Op) : Flows :=
  match op with
  | Op.opIo c t => io fs c t
  | Op.opInput c sid l => (inputText fs c sid l).1
  | Op.opOutput c => (outputText fs c).1
  | Op.opEnd c => (endFlow fs c).1
  | Op.opTimeout c => timeout fs c
  | Op.opHttp m p b => (endpoint fs m p b).1

def flowStatus (fs : Flows) (c : String) : Option Status :=
  (lookupFlow fs c).map Flow.status

def stepStatusIn (fs : Flows) (c sid : String) : Option Status :=
  (lookupFlow fs c).bind (fun fl => (fl.steps.find? (fun s => s.id == sid)).map FlowStep.status)

def stepPromIn (fs : Flows) (c sid : String) : Option PromState :=
  (lookupFlow fs c).bind (fun fl => (fl.steps.find? (fun s => s.id == sid)).map FlowStep.prom)

def terminalStatus (s : Status) : Bool :=
  decide (s = Status.done) || decide (s = Status.aborted)

/-- Identity of a step: the fields no operation ever writes. -/
def stepSig (s : FlowStep) : String × String × StepKind :=
  (s.id, s.label, s.kind)

/-- The old step sequence survives as a prefix (same ids, labels, kinds,
same order) of the new one. -/
def stepsPreserved (old new : List FlowStep) : Prop :=
  (new.map stepSig).take old.length = old.map stepSig

def isErrorResponse (r : Response) : Bool :=
  match r with
  | Response.errorJson _ _ => true
  | _ => false

/-- A step whose rendering neither throws nor hangs: if its status is
`done`, its promise is fulfilled. -/
def stepRenderSafe (s : FlowStep) : Bool :=
  !(decide (s.status = Status.done)) ||
    (match s.prom with
     | PromState.resolvedP _ => true
     | _ => false)

/-! Example states used by witness theorems, and the concrete traces used by
counterexamples.  All are built through the operations themselves. -/

def sampleFlow : Flow :=
  { title := "T", status := Status.notStarted, steps := [mkInputStep "s1" "Name"] }

def sampleReg : Flows := [("c", sampleFlow)]

def emptyFlowReg : Flows := io [] "c" "T"

def oneStepReg : Flows := (inputText emptyFlowReg (some "c") "s1" "Name").1

def abortedReg : Flows := timeout oneStepReg "c"

def endedReg : Flows := (endFlow oneStepReg (some "c")).1

def bugReg : Flows :=
  (endpoint abortedReg "POST" "/flow/c/s1" (some (BodyVal.parsed (some "x")))).1

def lateStepReg : Flows := (inputText bugReg (some "c") "s2" "Late").1

/-! ## Registry lemmas -/

theorem lookupFlow_cons (p : String × Flow) (rest : Flows) (c : String) :
    lookupFlow (p :: rest) c = if p.1 = c then some p.2 else lookupFlow rest c := by
  by_cases h : p.1 = c
  · simp [lookupFlow, List.find?_cons_of_pos, h]
  · simp [lookupFlow, List.find?_cons_of_neg, h]

theorem lookup_updFlow (fs : Flows) (c c2 : String) (f : Flow → Flow) :
    lookupFlow (updFlow fs c f) c2 =
      if c2 = c then (lookupFlow fs c2).map f else lookupFlow fs c2 := by
  induction fs with
  | nil => simp [lookupFlow, updFlow]
  | cons p rest ih =>
    by_cases hp : p.1 = c
    · simp only [updFlow, List.map_cons, if_pos hp]
      rw [lookupFlow_cons, lookupFlow_cons]
      by_cases hc : c2 = c
      · simp [hp, hc, ih]
      · have hne : ¬ p.1 = c2 := by rw [hp]; intro h; exact hc h.symm
        simp only [hne, if_neg, if_neg hc]
        have h2 := ih
        simp only [updFlow] at h2
        simpa [if_neg hc] using h2
    · simp only [updFlow, List.map_cons, if_neg hp]
      rw [lookupFlow_cons, lookupFlow_cons]
      by_cases hq : p.1 = c2
      · by_cases hc : c2 = c
        · exact absurd (hq.trans hc) hp
        · simp [hq, hc]
      · simp only [if_neg hq]
        have h2 := ih
        simp only [updFlow] at h2
        simpa using h2

theorem updFlow_id (fs : Flows) (c : String) : updFlow fs c (fun fl => fl) = fs := by
  induction fs with
  | nil => rfl
  | cons p rest ih =>
    simp only [updFlow, List.map_cons] at ih ⊢
    rw [ih]
    by_cases hp : p.1 = c
    · rw [if_pos hp, Prod.mk.eta]
    · simp [hp]

theorem updFlow_updFlow (fs : Flows) (c : String) (f g : Flow → Flow) :
    updFlow (updFlow fs c f) c g = updFlow fs c (fun fl => g (f fl)) := by
  induction fs with
  | nil => rfl
  | cons p rest ih =>
    simp only [updFlow, List.map_cons] at ih ⊢
    rw [ih]
    by_cases hp : p.1 = c <;> simp [hp]

theorem lookup_append_left (fs l2 : Flows) (c : String) (fl : Flow)
    (h : lookupFlow fs c = some fl) : lookupFlow (fs ++ l2) c = some fl := by
  induction fs with
  | nil => simp [lookupFlow] at h
  | cons p rest ih =>
    rw [lookupFlow_cons] at h
    rw [List.cons_append, lookupFlow_cons]
    by_cases hp : p.1 = c
    · simpa [hp] using h
    · rw [if_neg hp] at h ⊢; exact ih h

theorem lookup_io (fs : Flows) (c c2 title : String) (fl : Flow)
    (h : lookupFlow fs c = some fl) : lookupFlow (io fs c2 title) c = some fl := by
  unfold io
  by_cases hc : containsFlow fs c2
  · simpa [hc] using h
  · simp only [hc, if_neg, Bool.false_eq_true, if_false]
    exact lookup_append_left fs _ c fl h

theorem containsFlow_of_lookup (fs : Flows) (c : String) (fl : Flow)
    (h : lookupFlow fs c = some fl) : containsFlow fs c = true := by
  simp [containsFlow, h]

/-! ## Step-level lemmas -/

theorem renderStep1_fst (s : FlowStep) : (renderStep1 s).1 = setInProgress s := by
  rcases s with ⟨i, lb, k, st, pr⟩
  cases st <;> cases pr <;> rfl

theorem stepSig_setInProgress (s : FlowStep) : stepSig (setInProgress s) = stepSig s := by
  unfold setInProgress
  by_cases h : s.status = Status.notStarted <;> simp [h, stepSig]

theorem status_setInProgress (s : FlowStep) :
    (setInProgress s).status = Status.notStarted → False := by
  unfold setInProgress
  rcases s with ⟨i, lb, k, st, pr⟩
  cases st <;> simp

theorem setInProgress_of_done (s : FlowStep) (h : s.status = Status.done) :
    setInProgress s = s := by
  unfold setInProgress
  rw [h]
  simp

theorem stepSig_settleStep (s : FlowStep) (v : String) :
    stepSig (settleStep s v) = stepSig s := by
  simp [settleStep, stepSig]

theorem renderSteps_shape (l : List FlowStep) :
    ∃ k, k ≤ l.length ∧ (renderSteps l).1 = (l.take k).map setInProgress ++ l.drop k := by
  induction l with
  | nil => exact ⟨0, by simp [renderSteps]⟩
  | cons s rest ih =>
    cases hr : (renderStep1 s).2 with
    | view v =>
      obtain ⟨k, hk, hsh⟩ := ih
      refine ⟨k + 1, by simpa using Nat.succ_le_succ hk, ?_⟩
      simp only [renderSteps, hr]
      simp [renderStep1_fst, hsh]
    | failed =>
      refine ⟨1, by simp, ?_⟩
      simp only [renderSteps, hr]
      simp [renderStep1_fst]
    | stuck =>
      refine ⟨1, by simp, ?_⟩
      simp only [renderSteps, hr]
      simp [renderStep1_fst]

theorem renderSteps_sig (l : List FlowStep) :
    ((renderSteps l).1).map stepSig = l.map stepSig := by
  obtain ⟨k, _, hsh⟩ := renderSteps_shape l
  rw [hsh, List.map_append, List.map_map]
  have hcomp : (l.take k).map (stepSig ∘ setInProgress) = (l.take k).map stepSig := by
    apply List.map_congr_left
    intro s _
    exact stepSig_setInProgress s
  rw [hcomp, ← List.map_append, List.take_append_drop]

theorem updateFirst_sig (l : List FlowStep) (p : FlowStep → Bool) (f : FlowStep → FlowStep)
    (hf : ∀ s, stepSig (f s) = stepSig s) :
    (updateFirst l p f).map stepSig = l.map stepSig := by
  induction l with
  | nil => rfl
  | cons s rest ih =>
    unfold updateFirst
    by_cases hp : p s
    · simp [hp, hf]
    · simp [hp, ih]

theorem find?_updateFirst (l : List FlowStep) (p : FlowStep → Bool) (f : FlowStep → FlowStep)
    (hpf : ∀ s, p (f s) = p s) (st : FlowStep) (h : l.find? p = some st) :
    (updateFirst l p f).find? p = some (f st) := by
  induction l with
  | nil => simp at h
  | cons s rest ih =>
    unfold updateFirst
    by_cases hp : p s = true
    · rw [List.find?_cons_of_pos _ hp] at h
      rw [if_pos hp, List.find?_cons_of_pos _ (by rw [hpf]; exact hp)]
      simp at h
      rw [h]
    · rw [List.find?_cons_of_neg _ hp] at h
      rw [if_neg hp, List.find?_cons_of_neg _ hp]
      exact ih h

theorem find?_updateFirst_fixed (l : List FlowStep) (p q : FlowStep → Bool)
    (g : FlowStep → FlowStep) (hpg : ∀ s, p (g s) = p s) (st : FlowStep)
    (h : l.find? p = some st) (hfix : g st = st) :
    (updateFirst l q g).find? p = some st := by
  induction l with
  | nil => simp at h
  | cons s rest ih =>
    unfold updateFirst
    by_cases hq : q s = true
    · rw [if_pos hq]
      by_cases hp : p s = true
      · rw [List.find?_cons_of_pos _ hp] at h
        simp at h
        rw [List.find?_cons_of_pos _ (by rw [hpg]; exact hp)]
        rw [h, hfix]
      · rw [List.find?_cons_of_neg _ hp] at h
        rw [List.find?_cons_of_neg _ (by rw [hpg]; exact hp)]
        exact h
    · rw [if_neg hq]
      by_cases hp : p s = true
      · rw [List.find?_cons_of_pos _ hp] at h
        rw [List.find?_cons_of_pos _ hp]
        exact h
      · rw [List.find?_cons_of_neg _ hp] at h
        rw [List.find?_cons_of_neg _ hp]
        exact ih h

theorem find?_renderSteps_fixed (p : FlowStep → Bool)
    (hp : ∀ s, p (setInProgress s) = p s) (l : List FlowStep) (st : FlowStep)
    (h : l.find? p = some st) (hfix : setInProgress st = st) :
    ((renderSteps l).1).find? p = some st := by
  induction l with
  | nil => simp at h
  | cons s rest ih =>
    have hfst : (renderStep1 s).1 = setInProgress s := renderStep1_fst s
    by_cases hps : p s = true
    · rw [List.find?_cons_of_pos _ hps] at h
      simp at h
      subst h
      have hsp : p (setInProgress s) = true := by rw [hp]; exact hps
      cases hr : (renderStep1 s).2 with
      | view v =>
        simp only [renderSteps, hr, hfst]
        rw [List.find?_cons_of_pos _ hsp, hfix]
      | failed =>
        simp only [renderSteps, hr, hfst]
        rw [List.find?_cons_of_pos _ hsp, hfix]
      | stuck =>
        simp only [renderSteps, hr, hfst]
        rw [List.find?_cons_of_pos _ hsp, hfix]
    · rw [List.find?_cons_of_neg _ hps] at h
      have hsp : ¬ p (setInProgress s) = true := by rw [hp]; exact hps
      cases hr : (renderStep1 s).2 with
      | view v =>
        simp only [renderSteps, hr, hfst]
        rw [List.find?_cons_of_neg _ hsp]
        exact ih h
      | failed =>
        simp only [renderSteps, hr, hfst]
        rw [List.find?_cons_of_neg _ hsp]
        exact h
      | stuck =>
        simp only [renderSteps, hr, hfst]
        rw [List.find?_cons_of_neg _ hsp]
        exact h

/-! ## Shape of the state transformations performed by rendering and the
endpoint: they only rewrite the addressed flow, never touch a flow's
status, and never change a step's identity fields. -/

theorem renderNextStep_shape (fs : Flows) (c : String) :
    ∃ f : Flow → Flow, (renderNextStep fs c).1 = updFlow fs c f ∧
      (∀ fl, (f fl).status = fl.status) ∧
      (∀ fl, ((f fl).steps).map stepSig = (fl.steps).map stepSig) := by
  unfold renderNextStep
  cases hl : lookupFlow fs c with
  | none =>
    refine ⟨fun fl => fl, ?_, fun fl => rfl, fun fl => rfl⟩
    simp [updFlow_id]
  | some fl0 =>
    cases hfind : fl0.steps.find? (fun s => decide (s.status = Status.notStarted)) with
    | none =>
      refine ⟨fun fl => fl, ?_, fun fl => rfl, fun fl => rfl⟩
      by_cases hst : fl0.status = Status.done <;> simp [hl, hfind, hst, updFlow_id]
    | some s =>
      refine ⟨fun f2 =>
        { f2 with
          steps := updateFirst f2.steps (fun t => decide (t.status = Status.notStarted))
            (fun t => (renderStep1 t).1) }, ?_, fun fl => rfl, fun fl => ?_⟩
      · simp [hl, hfind]
      · apply updateFirst_sig
        intro t
        rw [renderStep1_fst]
        exact stepSig_setInProgress t

theorem renderFlow_shape (fs : Flows) (c : String) :
    ∃ f : Flow → Flow, (renderFlow fs c).1 = updFlow fs c f ∧
      (∀ fl, (f fl).status = fl.status) ∧
      (∀ fl, lookupFlow fs c = some fl → ((f fl).steps).map stepSig = (fl.steps).map stepSig) := by
  unfold renderFlow
  cases hl : lookupFlow fs c with
  | none =>
    refine ⟨fun fl => fl, by simp [updFlow_id], fun fl => rfl, fun fl h => rfl⟩
  | some fl0 =>
    have hsig1 : ∀ fl : Flow, some fl0 = some fl →
        (((renderSteps fl0.steps).1).map stepSig) = (fl.steps).map stepSig := by
      intro fl h
      cases h
      exact renderSteps_sig fl0.steps
    cases hro : (renderSteps fl0.steps).2 with
    | failed =>
      refine ⟨fun f2 => { f2 with steps := (renderSteps fl0.steps).1 }, ?_, fun fl => rfl, hsig1⟩
      simp [hl, hro]
    | stuck =>
      refine ⟨fun f2 => { f2 with steps := (renderSteps fl0.steps).1 }, ?_, fun fl => rfl, hsig1⟩
      simp [hl, hro]
    | ok views =>
      cases hst : fl0.status with
      | done =>
        refine ⟨fun f2 => { f2 with steps := (renderSteps fl0.steps).1 }, ?_, fun fl => rfl, hsig1⟩
        simp [hl, hro, hst]
      | aborted =>
        refine ⟨fun f2 => { f2 with steps := (renderSteps fl0.steps).1 }, ?_, fun fl => rfl, hsig1⟩
        simp [hl, hro, hst]
      | notStarted =>
        by_cases had : ((renderSteps fl0.steps).1).all (fun s => decide (s.status = Status.done)) = true
        · obtain ⟨g, hgeq, hgst, hgsig⟩ :=
            renderNextStep_shape (updFlow fs c (fun f2 => { f2 with steps := (renderSteps fl0.steps).1 })) c
          refine ⟨fun f2 => g { f2 with steps := (renderSteps fl0.steps).1 }, ?_, ?_, ?_⟩
          · simp only [hl, hro, hst, had]
            simp only [hgeq, updFlow_updFlow]
            simp
          · intro fl
            rw [hgst]
          · intro fl h
            rw [hgsig, hsig1 fl h]
        · refine ⟨fun f2 => { f2 with steps := (renderSteps fl0.steps).1 }, ?_, fun fl => rfl, hsig1⟩
          simp [hl, hro, hst, had]
      | inProgress =>
        by_cases had : ((renderSteps fl0.steps).1).all (fun s => decide (s.status = Status.done)) = true
        · obtain ⟨g, hgeq, hgst, hgsig⟩ :=
            renderNextStep_shape (updFlow fs c (fun f2 => { f2 with steps := (renderSteps fl0.steps).1 })) c
          refine ⟨fun f2 => g { f2 with steps := (renderSteps fl0.steps).1 }, ?_, ?_, ?_⟩
          · simp only [hl, hro, hst, had]
            simp only [hgeq, updFlow_updFlow]
            simp
          · intro fl
            rw [hgst]
          · intro fl h
            rw [hgsig, hsig1 fl h]
        · refine ⟨fun f2 => { f2 with steps := (renderSteps fl0.steps).1 }, ?_, fun fl => rfl, hsig1⟩
          simp [hl, hro, hst, had]

theorem resolveStep_shape (fs : Flows) (c sid v : String) :
    resolveStep fs c sid v =
      updFlow fs c (fun fl =>
        { fl with steps := updateFirst fl.steps (fun s => s.id == sid) (fun s => settleStep s v) }) :=
  rfl

theorem endpoint_shape (fs : Flows) (m pa : String) (b : Option BodyVal) :
    ∃ c f, (endpoint fs m pa b).1 = updFlow fs c f ∧
      (∀ fl, (f fl).status = fl.status) ∧
      (∀ fl, lookupFlow fs c = some fl → ((f fl).steps).map stepSig = (fl.steps).map stepSig) := by
  have hid : ∀ c0 : String, fs = updFlow fs c0 (fun fl => fl) := by
    intro c0
    rw [updFlow_id]
  unfold endpoint
  by_cases hpost : (m == "POST" && strStartsWith pa "/flow/") = true
  · rw [if_pos hpost]
    cases b with
    | none => exact ⟨"", fun fl => fl, by rw [← hid], fun fl => rfl, fun fl h => rfl⟩
    | some bv =>
      simp only []
      cases hpf : postFlow fs pa bv with
      | none =>
        simp only []
        exact ⟨"", fun fl => fl, by rw [← hid], fun fl => rfl, fun fl h => rfl⟩
      | some r =>
        simp only []
        unfold postFlow at hpf
        cases hseg : (pathSegs pa).get? 0 with
        | none =>
          rw [hseg] at hpf
          simp only [] at hpf
          exact Option.noConfusion hpf
        | some c =>
          rw [hseg] at hpf
          simp only [] at hpf
          cases hl : lookupFlow fs c with
          | none =>
            rw [hl] at hpf
            simp only [] at hpf
            exact Option.noConfusion hpf
          | some fl0 =>
            rw [hl] at hpf
            simp only [] at hpf
            cases hfd : findStep fl0 ((pathSegs pa).get? 1) with
            | none =>
              rw [hfd] at hpf
              simp only [] at hpf
              exact Option.noConfusion hpf
            | some st =>
              rw [hfd] at hpf
              simp only [] at hpf
              cases bv with
              | malformed =>
                have hr := Option.some.inj hpf
                exact ⟨"", fun fl => fl, by rw [← hr, ← hid], fun fl => rfl, fun fl h => rfl⟩
              | parsed v2 =>
                simp only [] at hpf
                cases hu : usableValue v2 with
                | none =>
                  rw [hu] at hpf
                  simp only [] at hpf
                  have hr := Option.some.inj hpf
                  exact ⟨"", fun fl => fl, by rw [← hr, ← hid], fun fl => rfl, fun fl h => rfl⟩
                | some v =>
                  rw [hu] at hpf
                  simp only [] at hpf
                  have hr := Option.some.inj hpf
                  obtain ⟨g, hgeq, hgst, hgsig⟩ := renderFlow_shape (resolveStep fs c st.id v) c
                  refine ⟨c, fun fl => g { fl with
                    steps := updateFirst fl.steps (fun s => s.id == st.id)
                      (fun s => settleStep s v) }, ?_, ?_, ?_⟩
                  · rw [← hr, hgeq, resolveStep_shape, updFlow_updFlow]
                  · intro fl
                    rw [hgst]
                  · intro fl h
                    rw [hl] at h
                    cases h
                    have hl2 : lookupFlow (resolveStep fs c st.id v) c =
                        some { fl0 with
                          steps := updateFirst fl0.steps (fun s => s.id == st.id)
                            (fun s => settleStep s v) } := by
                      rw [resolveStep_shape, lookup_updFlow, if_pos rfl, hl]
                      rfl
                    rw [hgsig _ hl2]
                    exact updateFirst_sig _ _ _ (fun s => stepSig_settleStep s v)
  · rw [if_neg hpost]
    by_cases hget : (m == "GET" && strStartsWith pa "/flow/") = true
    · rw [if_pos hget]
      unfold getFlow
      cases hseg : (pathSegs pa).get? 0 with
      | none => exact ⟨"", fun fl => fl, by simp [← hid], fun fl => rfl, fun fl h => rfl⟩
      | some c =>
        simp only []
        by_cases hc : containsFlow fs c = true
        · rw [if_pos hc]
          obtain ⟨g, hgeq, hgst, hgsig⟩ := renderFlow_shape fs c
          exact ⟨c, g, hgeq, hgst, hgsig⟩
        · rw [if_neg hc]
          exact ⟨"", fun fl => fl, by rw [← hid], fun fl => rfl, fun fl h => rfl⟩
    · rw [if_neg hget]
      exact ⟨"", fun fl => fl, by rw [← hid], fun fl => rfl, fun fl h => rfl⟩

/-! ## Frame corollaries -/

theorem flowStatus_updFlow_pres (fs : Flows) (c c2 : String) (f : Flow → Flow)
    (hf : ∀ fl, (f fl).status = fl.status) :
    flowStatus (updFlow fs c f) c2 = flowStatus fs c2 := by
  unfold flowStatus
  rw [lookup_updFlow]
  by_cases hc : c2 = c
  · rw [if_pos hc]
    cases hl : lookupFlow fs c2 <;> simp [hf]
  · rw [if_neg hc]

theorem flowStatus_endpoint (fs : Flows) (m pa : String) (b : Option BodyVal) (c2 : String) :
    flowStatus ((endpoint fs m pa b).1) c2 = flowStatus fs c2 := by
  obtain ⟨c, f, heq, hst, _⟩ := endpoint_shape fs m pa b
  rw [heq]
  exact flowStatus_updFlow_pres fs c c2 f hst

theorem sig_endpoint (fs : Flows) (m pa : String) (b : Option BodyVal) (c2 : String)
    (fl : Flow) (h : lookupFlow fs c2 = some fl) :
    ∃ fl2, lookupFlow ((endpoint fs m pa b).1) c2 = some fl2 ∧
      fl2.steps.map stepSig = fl.steps.map stepSig := by
  obtain ⟨c, f, heq, _, hsig⟩ := endpoint_shape fs m pa b
  rw [heq, lookup_updFlow]
  by_cases hc : c2 = c
  · rw [if_pos hc, h]
    subst hc
    exact ⟨f fl, rfl, hsig fl h⟩
  · rw [if_neg hc, h]
    exact ⟨fl, rfl, rfl⟩

theorem stepsPreserved_refl (l : List FlowStep) : stepsPreserved l l := by
  unfold stepsPreserved
  rw [show l.length = (l.map stepSig).length from (List.length_map l stepSig).symm,
    List.take_length]

theorem stepsPreserved_of_sig_eq (old new2 : List FlowStep)
    (h : new2.map stepSig = old.map stepSig) : stepsPreserved old new2 := by
  unfold stepsPreserved
  rw [h, show old.length = (old.map stepSig).length from (List.length_map old stepSig).symm,
    List.take_length]

theorem stepsPreserved_append (old : List FlowStep) (x : FlowStep) :
    stepsPreserved old (old ++ [x]) := by
  unfold stepsPreserved
  rw [List.map_append,
    show old.length = (old.map stepSig).length from (List.length_map old stepSig).symm,
    List.take_left]

/-- No operation of the system removes or reorders the steps of an existing
flow: the old step sequence survives as a prefix with identities intact. -/
theorem preserve_applyOp (fs : Flows) (op : Op) (c : String) (fl : Flow)
    (h : lookupFlow fs c = some fl) :
    ∃ fl2, lookupFlow (applyOp fs op) c = some fl2 ∧ stepsPreserved fl.steps fl2.steps := by
  cases op with
  | opIo c2 t =>
    exact ⟨fl, lookup_io fs c c2 t fl h, stepsPreserved_refl fl.steps⟩
  | opInput ctx sid lb =>
    simp only [applyOp]
    unfold inputText
    by_cases hm : flowMissing fs ctx = true
    · rw [if_pos hm]
      exact ⟨fl, h, stepsPreserved_refl fl.steps⟩
    · rw [if_neg hm]
      cases ctx with
      | none => exact ⟨fl, h, stepsPreserved_refl fl.steps⟩
      | some c0 =>
        simp only []
        rw [lookup_updFlow]
        by_cases hc : c = c0
        · rw [if_pos hc, h]
          exact ⟨_, rfl, stepsPreserved_append fl.steps (mkInputStep sid lb)⟩
        · rw [if_neg hc, h]
          exact ⟨fl, rfl, stepsPreserved_refl fl.steps⟩
  | opOutput ctx =>
    simp only [applyOp]
    unfold outputText
    by_cases hm : flowMissing fs ctx = true
    · rw [if_pos hm]
      exact ⟨fl, h, stepsPreserved_refl fl.steps⟩
    · rw [if_neg hm]
      exact ⟨fl, h, stepsPreserved_refl fl.steps⟩
  | opEnd ctx =>
    simp only [applyOp]
    unfold endFlow
    by_cases hm : flowMissing fs ctx = true
    · rw [if_pos hm]
      exact ⟨fl, h, stepsPreserved_refl fl.steps⟩
    · rw [if_neg hm]
      cases ctx with
      | none => exact ⟨fl, h, stepsPreserved_refl fl.steps⟩
      | some c0 =>
        simp only []
        rw [lookup_updFlow]
        by_cases hc : c = c0
        · rw [if_pos hc, h]
          exact ⟨_, rfl, stepsPreserved_refl fl.steps⟩
        · rw [if_neg hc, h]
          exact ⟨fl, rfl, stepsPreserved_refl fl.steps⟩
  | opTimeout c0 =>
    simp only [applyOp]
    unfold timeout
    by_cases hcf : containsFlow fs c0 = true
    · rw [if_pos hcf, lookup_updFlow]
      by_cases hc : c = c0
      · rw [if_pos hc, h]
        refine ⟨_, rfl, stepsPreserved_of_sig_eq _ _ ?_⟩
        simp only []
        rw [List.map_map]
        apply List.map_congr_left
        intro s _
        by_cases hd : s.status = Status.done
        · simp [hd]
        · simp [hd, abortStep, stepSig]
      · rw [if_neg hc, h]
        exact ⟨fl, rfl, stepsPreserved_refl fl.steps⟩
    · rw [if_neg hcf]
      exact ⟨fl, h, stepsPreserved_refl fl.steps⟩
  | opHttp m pa b =>
    obtain ⟨fl2, heq, hsig⟩ := sig_endpoint fs m pa b c fl h
    exact ⟨fl2, heq, stepsPreserved_of_sig_eq _ _ hsig⟩

/-- Once a flow's status is terminal, every single operation leaves it
terminal (`end` keeps/writes `done`, `timeout` keeps/writes `aborted`,
everything else leaves the status unchanged). -/
theorem terminal_applyOp (fs : Flows) (op : Op) (c : String) (s : Status)
    (h : flowStatus fs c = some s) (ht : terminalStatus s = true) :
    ∃ s2, flowStatus (applyOp fs op) c = some s2 ∧ terminalStatus s2 = true := by
  cases op with
  | opIo c2 t =>
    unfold flowStatus at h
    cases hl : lookupFlow fs c with
    | none => rw [hl] at h; exact Option.noConfusion h
    | some fl =>
      rw [hl] at h
      refine ⟨s, ?_, ht⟩
      simp only [applyOp]
      unfold flowStatus
      rw [lookup_io fs c c2 t fl hl]
      exact h
  | opInput ctx sid lb =>
    simp only [applyOp]
    unfold inputText
    by_cases hm : flowMissing fs ctx = true
    · rw [if_pos hm]
      exact ⟨s, h, ht⟩
    · rw [if_neg hm]
      cases ctx with
      | none => exact ⟨s, h, ht⟩
      | some c0 =>
        simp only []
        refine ⟨s, ?_, ht⟩
        rw [flowStatus_updFlow_pres fs c0 c
          (fun fl => { fl with steps := fl.steps ++ [mkInputStep sid lb] }) (fun fl => rfl)]
        exact h
  | opOutput ctx =>
    simp only [applyOp]
    unfold outputText
    by_cases hm : flowMissing fs ctx = true
    · rw [if_pos hm]
      exact ⟨s, h, ht⟩
    · rw [if_neg hm]
      exact ⟨s, h, ht⟩
  | opEnd ctx =>
    simp only [applyOp]
    unfold endFlow
    by_cases hm : flowMissing fs ctx = true
    · rw [if_pos hm]
      exact ⟨s, h, ht⟩
    · rw [if_neg hm]
      cases ctx with
      | none => exact ⟨s, h, ht⟩
      | some c0 =>
        simp only []
        unfold flowStatus
        rw [lookup_updFlow]
        by_cases hc : c = c0
        · rw [if_pos hc]
          unfold flowStatus at h
          cases hl : lookupFlow fs c with
          | none => rw [hl] at h; exact Option.noConfusion h
          | some fl =>
            exact ⟨Status.done, rfl, by decide⟩
        · rw [if_neg hc]
          exact ⟨s, h, ht⟩
  | opTimeout c0 =>
    simp only [applyOp]
    unfold timeout
    by_cases hcf : containsFlow fs c0 = true
    · rw [if_pos hcf]
      unfold flowStatus
      rw [lookup_updFlow]
      by_cases hc : c = c0
      · rw [if_pos hc]
        unfold flowStatus at h
        cases hl : lookupFlow fs c with
        | none => rw [hl] at h; exact Option.noConfusion h
        | some fl =>
          rw [hl] at h
          simp only [Option.map_some'] at h ⊢
          by_cases hany :
              (fl.steps.any (fun s => !(decide (s.status = Status.done)))) = true
          · exact ⟨Status.aborted, by simp [hany], by decide⟩
          · refine ⟨fl.status, by simp [hany], ?_⟩
            rw [show fl.status = s from Option.some.inj h]
            exact ht
      · rw [if_neg hc]
        exact ⟨s, h, ht⟩
    · rw [if_neg hcf]
      exact ⟨s, h, ht⟩
  | opHttp m pa b =>
    refine ⟨s, ?_, ht⟩
    simp only [applyOp]
    rw [flowStatus_endpoint]
    exact h

/-! ## Claim theorems -/

/-- C8: invoking the workflow-facing input operation with a context that is
undefined, empty, or absent from the flow registry fails with the
"Flow not started" error and leaves the registry unchanged, so no step is
appended to any flow. -/
theorem c8_input_on_missing_flow (fs : Flows) (ctx : Option String) (sid lb : String)
    (h : flowMissing fs ctx = true) :
    inputText fs ctx sid lb = (fs, Except.error "Flow not started") := by
  unfold inputText
  rw [if_pos h]

/-- C8 witness: an undefined context and a context absent from a concrete
registry both fail without touching the registry. -/
theorem c8_input_on_missing_flow_witness :
    inputText sampleReg none "s9" "Q" = (sampleReg, Except.error "Flow not started") ∧
    inputText sampleReg (some "zz") "s9" "Q" = (sampleReg, Except.error "Flow not started") :=
  ⟨c8_input_on_missing_flow sampleReg none "s9" "Q" (by decide),
   c8_input_on_missing_flow sampleReg (some "zz") "s9" "Q" (by decide)⟩

/-- C9: re-invoking `io` with a context already present in the registry is
the identity on the registry: the stored flow keeps exactly its title,
status and step sequence, whatever title is passed. -/
theorem c9_io_idempotent_on_existing (fs : Flows) (ctx title2 : String)
    (h : containsFlow fs ctx = true) : io fs ctx title2 = fs := by
  unfold io
  rw [if_pos h]

/-- C9 witness: recreating an existing flow under a different title changes
nothing. -/
theorem c9_io_idempotent_on_existing_witness :
    io sampleReg "c" "Another title" = sampleReg :=
  c9_io_idempotent_on_existing sampleReg "c" "Another title" (by decide)

/-- C2: the timeout handler is a registry no-op for an unknown flow id;
for a known flow it leaves every other flow untouched, rewrites exactly the
steps whose status is not `done` to `aborted` with their promise rejected
with reason "Timeout" (identity fields intact), leaves `done` steps exactly
as they were, sets the flow status to `aborted` when some step was not
`done`, and leaves the flow status unchanged when all steps were `done`. -/
theorem c2_timeout_pass (fs : Flows) (c : String) :
    (containsFlow fs c = false → timeout fs c = fs) ∧
    (∀ c2, c2 ≠ c → lookupFlow (timeout fs c) c2 = lookupFlow fs c2) ∧
    (∀ fl, lookupFlow fs c = some fl →
      ∃ fl2, lookupFlow (timeout fs c) c = some fl2 ∧
        fl2.steps.length = fl.steps.length ∧
        (∀ i, (h1 : i < fl.steps.length) → (h2 : i < fl2.steps.length) →
          (fl.steps[i].status = Status.done → fl2.steps[i] = fl.steps[i]) ∧
          (fl.steps[i].status ≠ Status.done →
            fl2.steps[i].status = Status.aborted ∧
            fl2.steps[i].prom = promReject fl.steps[i].prom "Timeout" ∧
            stepSig fl2.steps[i] = stepSig fl.steps[i])) ∧
        ((∃ s2 ∈ fl.steps, s2.status ≠ Status.done) → fl2.status = Status.aborted) ∧
        ((∀ s2 ∈ fl.steps, s2.status = Status.done) → fl2.status = fl.status)) := by
  refine ⟨?_, ?_, ?_⟩
  · intro h
    unfold timeout
    rw [if_neg (by rw [h]; exact Bool.false_ne_true)]
  · intro c2 hne
    unfold timeout
    by_cases hc : containsFlow fs c = true
    · rw [if_pos hc, lookup_updFlow, if_neg hne]
    · rw [if_neg hc]
  · intro fl hl
    unfold timeout
    rw [if_pos (containsFlow_of_lookup fs c fl hl), lookup_updFlow, if_pos rfl, hl]
    refine ⟨_, rfl, ?_, ?_, ?_, ?_⟩
    · simp
    · intro i h1 h2
      simp only [List.getElem_map]
      constructor
      · intro hd
        rw [if_pos hd]
      · intro hd
        rw [if_neg hd]
        exact ⟨rfl, rfl, by simp [abortStep, stepSig]⟩
    · intro hex
      have hany : (fl.steps.any (fun s => !(decide (s.status = Status.done)))) = true := by
        rw [List.any_eq_true]
        obtain ⟨s2, hm, hs2⟩ := hex
        exact ⟨s2, hm, by simp [hs2]⟩
      simp [hany]
    · intro hall
      have hany : (fl.steps.any (fun s => !(decide (s.status = Status.done)))) = false := by
        rw [Bool.eq_false_iff]
        intro hcon
        rw [List.any_eq_true] at hcon
        obtain ⟨s2, hm, hs2⟩ := hcon
        simp [hall s2 hm] at hs2
      simp [hany]

/-- C2 witness: on a one-step pending flow the pass aborts the step and the
flow; the handler is a no-op for an unknown id. -/
theorem c2_timeout_pass_witness :
    timeout sampleReg "zz" = sampleReg ∧
    ∃ fl2, lookupFlow (timeout sampleReg "c") "c" = some fl2 ∧
      fl2.status = Status.aborted := by
  refine ⟨(c2_timeout_pass sampleReg "zz").1 (by decide), ?_⟩
  obtain ⟨fl2, heq, _, _, habort, _⟩ :=
    (c2_timeout_pass sampleReg "c").2.2 sampleFlow (by decide)
  exact ⟨fl2, heq, habort ⟨mkInputStep "s1" "Name", by decide, by decide⟩⟩

/-- C3 counterexample: flow status is not monotonic.  A flow that `end` has
set to `done` while a step is still pending transitions to `aborted` when
the timeout pass fires, so a terminal status does change afterwards. -/
theorem c3_monotonic_cex :
    flowStatus endedReg "c" = some Status.done ∧
    flowStatus (applyOp endedReg (Op.opTimeout "c")) "c" = some Status.aborted ∧
    Status.done ≠ Status.aborted := by
  decide

/-- C3 amended: once a flow's status is terminal (`done` or `aborted`), it
stays terminal under every sequence of operations; however `end` may still
rewrite `aborted` to `done` and `timeout` may rewrite `done` to `aborted`
while a non-`done` step exists, so only membership in the terminal set is
monotone, not the individual terminal status. -/
theorem c3_terminal_forever (fs : Flows) (c : String) (s : Status) (ops : List Op)
    (h : flowStatus fs c = some s) (ht : terminalStatus s = true) :
    ∃ s2, flowStatus (ops.foldl applyOp fs) c = some s2 ∧ terminalStatus s2 = true := by
  induction ops generalizing fs s with
  | nil => exact ⟨s, h, ht⟩
  | cons op rest ih =>
    obtain ⟨s1, h1, ht1⟩ := terminal_applyOp fs op c s h ht
    exact ih (applyOp fs op) s1 h1 ht1

/-- C3 amended witness: an aborted flow stays terminal across a timeout
pass followed by an `end` call. -/
theorem c3_terminal_forever_witness :
    ∃ s2, flowStatus
        ([Op.opTimeout "c", Op.opEnd (some "c")].foldl applyOp abortedReg) "c" = some s2 ∧
      terminalStatus s2 = true :=
  c3_terminal_forever abortedReg "c" Status.aborted
    [Op.opTimeout "c", Op.opEnd (some "c")] (by decide) (by decide)

/-- C7: on an existing flow (with a non-empty id, as the id generator
produces), the input operation succeeds and appends exactly one new step —
with the supplied fresh id, the given label, kind `input`, status
`not-started` — at the end of the step sequence, leaving every other flow
untouched; and no operation of the system ever removes or reorders the
steps of an existing flow (the old sequence survives as a prefix with ids,
labels and kinds intact). -/
theorem c7_append_only (fs : Flows) :
    (∀ c fl sid lb, lookupFlow fs c = some fl → c ≠ "" →
      (inputText fs (some c) sid lb).2 = Except.ok () ∧
      lookupFlow ((inputText fs (some c) sid lb).1) c =
        some { fl with steps := fl.steps ++ [mkInputStep sid lb] } ∧
      (∀ c2, c2 ≠ c → lookupFlow ((inputText fs (some c) sid lb).1) c2 = lookupFlow fs c2)) ∧
    (∀ op c fl, lookupFlow fs c = some fl →
      ∃ fl2, lookupFlow (applyOp fs op) c = some fl2 ∧ stepsPreserved fl.steps fl2.steps) := by
  constructor
  · intro c fl sid lb hl hc
    have hm : flowMissing fs (some c) = false := by
      unfold flowMissing
      simp only []
      rw [containsFlow_of_lookup fs c fl hl]
      simp [hc]
    have heval : inputText fs (some c) sid lb =
        (updFlow fs c (fun fl2 => { fl2 with steps := fl2.steps ++ [mkInputStep sid lb] }),
         Except.ok ()) := by
      unfold inputText
      rw [hm]
      simp
    rw [heval]
    refine ⟨rfl, ?_, ?_⟩
    · rw [lookup_updFlow, if_pos rfl, hl]
      rfl
    · intro c2 hne
      rw [lookup_updFlow, if_neg hne]
  · intro op c fl hl
    exact preserve_applyOp fs op c fl hl

/-- C7 witness: appending a second step to a concrete one-step flow keeps
the first step in place, and a sample operation preserves the prefix. -/
theorem c7_append_only_witness :
    (inputText sampleReg (some "c") "s2" "Age").2 = Except.ok () ∧
    lookupFlow ((inputText sampleReg (some "c") "s2" "Age").1) "c" =
      some { sampleFlow with steps := sampleFlow.steps ++ [mkInputStep "s2" "Age"] } ∧
    ∃ fl2, lookupFlow (applyOp sampleReg (Op.opTimeout "c")) "c" = some fl2 ∧
      stepsPreserved sampleFlow.steps fl2.steps := by
  have h1 := (c7_append_only sampleReg).1 "c" sampleFlow "s2" "Age" (by decide) (by decide)
  have h2 := (c7_append_only sampleReg).2 (Op.opTimeout "c") "c" sampleFlow (by decide)
  exact ⟨h1.1, h1.2.1, h2⟩

/-- C4 counterexample: a POST with a well-formed non-empty body addressed
at a flow id absent from the registry does not produce any structured error
response (404-class or otherwise): the handler falls through to the landing
page. -/
theorem c4_post_unknown_flow_cex :
    isErrorResponse
      (endpoint sampleReg "POST" "/flow/zz/s1" (some (BodyVal.parsed (some "v")))).2 = false := by
  decide

/-- C4 amended: a POST with a non-empty body to `/flow/{flowId}/{stepId}`
whose flowId is not a registry key falls through to the landing-page
rendering (no 404-class structured error is produced) and mutates no flow
or step: the registry is returned unchanged. -/
theorem c4_post_unknown_flow_landing (fs : Flows) (pa : String) (b : BodyVal) (c : String)
    (h1 : strStartsWith pa "/flow/" = true)
    (h2 : (pathSegs pa).get? 0 = some c)
    (h3 : containsFlow fs c = false) :
    endpoint fs "POST" pa (some b) = (fs, landingPage fs) := by
  have hln : lookupFlow fs c = none := by
    unfold containsFlow at h3
    cases hl : lookupFlow fs c
    · rfl
    · rw [hl] at h3
      simp at h3
  have hpf : postFlow fs pa b = none := by
    unfold postFlow
    rw [h2]
    simp only []
    rw [hln]
  unfold endpoint
  rw [if_pos (by rw [h1]; rfl)]
  simp only []
  rw [hpf]

/-- C4 witness: the amended behaviour on a concrete registry and path. -/
theorem c4_post_unknown_flow_landing_witness :
    endpoint sampleReg "POST" "/flow/zz/s1" (some (BodyVal.parsed (some "v"))) =
      (sampleReg, landingPage sampleReg) :=
  c4_post_unknown_flow_landing sampleReg "/flow/zz/s1" (BodyVal.parsed (some "v")) "zz"
    (by decide) (by decide) (by decide)

/-- C5 counterexample: a POST whose parsed body lacks a usable value but
which addresses an unknown flow does not return the "Value required" error;
it falls through to the landing page. -/
theorem c5_value_required_cex :
    (endpoint [] "POST" "/flow/x/y" (some (BodyVal.parsed none))).2 = landingPage [] ∧
    landingPage [] ≠ Response.errorJson "Value required" 400 := by
  decide

/-- C5 amended: a POST to a `/flow/` path with an absent body always
returns the structured error with message "Body required" and status 400;
a POST addressed at an existing flow and an existing step of it whose
parsed body lacks a usable value returns the structured error with message
"Value required" and status 400; in both cases the registry is returned
unchanged (no flow or step is mutated). -/
theorem c5_structured_400_errors :
    (∀ fs pa, strStartsWith pa "/flow/" = true →
      endpoint fs "POST" pa none = (fs, Response.errorJson "Body required" 400)) ∧
    (∀ fs pa c sid fl st v2, strStartsWith pa "/flow/" = true →
      (pathSegs pa).get? 0 = some c → (pathSegs pa).get? 1 = some sid →
      lookupFlow fs c = some fl → fl.steps.find? (fun s => s.id == sid) = some st →
      usableValue v2 = none →
      endpoint fs "POST" pa (some (BodyVal.parsed v2)) =
        (fs, Response.errorJson "Value required" 400)) := by
  constructor
  · intro fs pa h1
    unfold endpoint
    rw [if_pos (by rw [h1]; rfl)]
  · intro fs pa c sid fl st v2 h1 h2 h3 hl hfind hu
    have hpf : postFlow fs pa (BodyVal.parsed v2) =
        some (fs, Response.errorJson "Value required" 400) := by
      unfold postFlow
      rw [h2]
      simp only []
      rw [hl]
      simp only []
      unfold findStep
      rw [h3]
      simp only []
      rw [hfind]
      simp only []
      rw [hu]
    unfold endpoint
    rw [if_pos (by rw [h1]; rfl)]
    simp only []
    rw [hpf]

/-- C5 witness: the two error responses on a concrete registry. -/
theorem c5_structured_400_errors_witness :
    endpoint sampleReg "POST" "/flow/c/s1" none =
      (sampleReg, Response.errorJson "Body required" 400) ∧
    endpoint sampleReg "POST" "/flow/c/s1" (some (BodyVal.parsed (some ""))) =
      (sampleReg, Response.errorJson "Value required" 400) :=
  ⟨(c5_structured_400_errors).1 sampleReg "/flow/c/s1" (by decide),
   (c5_structured_400_errors).2 sampleReg "/flow/c/s1" "c" "s1" sampleFlow
     (mkInputStep "s1" "Name") (some "") (by decide) (by decide) (by decide)
     (by decide) (by decide) (by decide)⟩

/-- C1 (code bug): the settle path is not a no-op on a terminal step.
After the timeout pass aborts step s1 (status `aborted`, promise rejected
with "Timeout"), a later POST to that step invokes its resolve closure,
which unconditionally writes status `done`: the step's status changes from
`aborted` to `done` after it was terminal, against the exactly-once
guarantee.  The stored promise outcome does stay rejected (the awaitable is
not completed a second time), so only the status flips. -/
theorem c1_settle_after_abort_flips_status :
    stepStatusIn abortedReg "c" "s1" = some Status.aborted ∧
    stepPromIn abortedReg "c" "s1" = some (PromState.rejectedP "Timeout") ∧
    stepStatusIn bugReg "c" "s1" = some Status.done ∧
    stepPromIn bugReg "c" "s1" = some (PromState.rejectedP "Timeout") := by
  decide

/-! ## Helpers for the round-trip and rendering claims -/

theorem id_setInProgress (s : FlowStep) : (setInProgress s).id = s.id := by
  unfold setInProgress
  by_cases h : s.status = Status.notStarted <;> simp [h]

theorem lookup_find_renderNextStep (fs : Flows) (c : String) (p : FlowStep → Bool)
    (hp : ∀ s, p (setInProgress s) = p s) (fl : Flow) (st : FlowStep)
    (h : lookupFlow fs c = some fl) (hf : fl.steps.find? p = some st)
    (hfix : setInProgress st = st) :
    ∃ fl2, lookupFlow ((renderNextStep fs c).1) c = some fl2 ∧
      fl2.steps.find? p = some st := by
  unfold renderNextStep
  rw [h]
  simp only []
  cases hfind : fl.steps.find? (fun s => decide (s.status = Status.notStarted)) with
  | none =>
    by_cases hst : fl.status = Status.done <;> simp [hst] <;> exact ⟨fl, h, hf⟩
  | some s0 =>
    simp only []
    rw [lookup_updFlow, if_pos rfl, h]
    refine ⟨_, rfl, ?_⟩
    simp only []
    apply find?_updateFirst_fixed fl.steps p _ _ _ st hf
    · rw [renderStep1_fst, hfix]
    · intro s
      rw [renderStep1_fst]
      exact hp s

theorem lookup_find_renderFlow (fs : Flows) (c : String) (p : FlowStep → Bool)
    (hp : ∀ s, p (setInProgress s) = p s) (fl : Flow) (st : FlowStep)
    (h : lookupFlow fs c = some fl) (hf : fl.steps.find? p = some st)
    (hfix : setInProgress st = st) :
    ∃ fl2, lookupFlow ((renderFlow fs c).1) c = some fl2 ∧
      fl2.steps.find? p = some st := by
  have hbase : ∃ fl2, lookupFlow
      (updFlow fs c (fun f2 => { f2 with steps := (renderSteps fl.steps).1 })) c =
        some fl2 ∧ fl2.steps.find? p = some st := by
    rw [lookup_updFlow, if_pos rfl, h]
    exact ⟨_, rfl, find?_renderSteps_fixed p hp fl.steps st hf hfix⟩
  unfold renderFlow
  rw [h]
  simp only []
  cases hro : (renderSteps fl.steps).2 with
  | failed => exact hbase
  | stuck => exact hbase
  | ok views =>
    cases hst : fl.status with
    | done => exact hbase
    | aborted => exact hbase
    | notStarted =>
      by_cases had :
          ((renderSteps fl.steps).1).all (fun s => decide (s.status = Status.done)) = true
      · simp only [had, if_true]
        obtain ⟨fl1, hl1, hf1⟩ := hbase
        exact lookup_find_renderNextStep _ c p hp fl1 st hl1 hf1 hfix
      · simp only [had]
        simp only [Bool.false_eq_true, if_false]
        exact hbase
    | inProgress =>
      by_cases had :
          ((renderSteps fl.steps).1).all (fun s => decide (s.status = Status.done)) = true
      · simp only [had, if_true]
        obtain ⟨fl1, hl1, hf1⟩ := hbase
        exact lookup_find_renderNextStep _ c p hp fl1 st hl1 hf1 hfix
      · simp only [had]
        simp only [Bool.false_eq_true, if_false]
        exact hbase

/-- C6: round-trip.  For a known flow and a step of it that is still
awaiting input (status `not-started` or `in-progress`, promise pending), a
POST to that step's path with body value v (a non-empty string) settles the
step: in the post-request registry the step has status `done` and its
promise is fulfilled with exactly v, and rendering that step reproduces
exactly v next to its label. -/
theorem c6_roundtrip (fs : Flows) (pa c sid v : String) (fl : Flow) (st : FlowStep)
    (h1 : strStartsWith pa "/flow/" = true)
    (h2 : (pathSegs pa).get? 0 = some c)
    (h3 : (pathSegs pa).get? 1 = some sid)
    (h4 : lookupFlow fs c = some fl)
    (h5 : fl.steps.find? (fun s => s.id == sid) = some st)
    (h6 : st.status = Status.notStarted ∨ st.status = Status.inProgress)
    (h7 : st.prom = PromState.pending)
    (h8 : v ≠ "") :
    ∃ fl2 st2,
      lookupFlow ((endpoint fs "POST" pa (some (BodyVal.parsed (some v)))).1) c = some fl2 ∧
      fl2.steps.find? (fun s => s.id == sid) = some st2 ∧
      st2.status = Status.done ∧
      st2.prom = PromState.resolvedP v ∧
      renderStep1 st2 = (st2, StepRes.view (StepView.doneView st.label v)) := by
  have hid : st.id = sid := by
    have hps := List.find?_some h5
    simpa using hps
  have hpf : postFlow fs pa (BodyVal.parsed (some v)) =
      some (renderFlow (resolveStep fs c st.id v) c) := by
    unfold postFlow
    rw [h2]
    simp only []
    rw [h4]
    simp only []
    unfold findStep
    rw [h3]
    simp only []
    rw [h5]
    simp only []
    unfold usableValue
    simp only []
    rw [if_neg h8]
  have hend : (endpoint fs "POST" pa (some (BodyVal.parsed (some v)))).1 =
      (renderFlow (resolveStep fs c st.id v) c).1 := by
    unfold endpoint
    rw [if_pos (by rw [h1]; rfl)]
    simp only []
    rw [hpf]
  rw [hend, hid]
  have hl1 : lookupFlow (resolveStep fs c sid v) c =
      some { fl with
        steps := updateFirst fl.steps (fun s => s.id == sid) (fun s => settleStep s v) } := by
    unfold resolveStep
    rw [lookup_updFlow, if_pos rfl, h4]
    rfl
  have hfind1 : (updateFirst fl.steps (fun s => s.id == sid)
      (fun s => settleStep s v)).find? (fun s => s.id == sid) = some (settleStep st v) :=
    find?_updateFirst fl.steps (fun s => s.id == sid) (fun s => settleStep s v)
      (fun s => rfl) st h5
  have hst2done : (settleStep st v).status = Status.done := rfl
  have hst2prom : (settleStep st v).prom = PromState.resolvedP v := by
    unfold settleStep
    simp only []
    rw [h7]
    rfl
  have hfix : setInProgress (settleStep st v) = settleStep st v :=
    setInProgress_of_done _ hst2done
  have hp : ∀ s, ((setInProgress s).id == sid) = (s.id == sid) := by
    intro s
    rw [id_setInProgress]
  obtain ⟨fl2, hlf2, hff2⟩ := lookup_find_renderFlow (resolveStep fs c sid v) c
    (fun s => s.id == sid) hp _ (settleStep st v) hl1 hfind1 hfix
  refine ⟨fl2, settleStep st v, hlf2, hff2, hst2done, hst2prom, ?_⟩
  rcases st with ⟨sid0, lb0, k0, stat0, prom0⟩
  simp only [] at h7
  subst h7
  rfl

/-- C6 witness: the round-trip on a concrete one-step flow with value
"Ada". -/
theorem c6_roundtrip_witness :
    ∃ fl2 st2,
      lookupFlow ((endpoint oneStepReg "POST" "/flow/c/s1"
        (some (BodyVal.parsed (some "Ada")))).1) "c" = some fl2 ∧
      fl2.steps.find? (fun s => s.id == "s1") = some st2 ∧
      st2.status = Status.done ∧
      st2.prom = PromState.resolvedP "Ada" ∧
      renderStep1 st2 = (st2, StepRes.view (StepView.doneView "Name" "Ada")) :=
  c6_roundtrip oneStepReg "/flow/c/s1" "c" "s1" "Ada"
    { title := "T", status := Status.notStarted, steps := [mkInputStep "s1" "Name"] }
    (mkInputStep "s1" "Name") (by decide) (by decide) (by decide) (by decide)
    (by decide) (Or.inl (by decide)) (by decide) (by decide)

theorem renderStep1_view_of_safe (s : FlowStep) (hs : stepRenderSafe s = true) :
    ∃ w, (renderStep1 s).2 = StepRes.view w := by
  rcases s with ⟨i, lb, k, stat, prom⟩
  cases stat <;> cases prom <;>
    first
      | exact ⟨_, rfl⟩
      | simp [stepRenderSafe] at hs

theorem renderSteps_of_safe (l : List FlowStep) (h : l.all stepRenderSafe = true) :
    (renderSteps l).1 = l.map setInProgress ∧
      ∃ vs, (renderSteps l).2 = RenderOut.ok vs := by
  induction l with
  | nil => exact ⟨rfl, [], rfl⟩
  | cons s rest ih =>
    rw [List.all_cons, Bool.and_eq_true] at h
    obtain ⟨w, hw⟩ := renderStep1_view_of_safe s h.1
    obtain ⟨hrest1, vs, hrest2⟩ := ih h.2
    constructor
    · simp only [renderSteps, hw, renderStep1_fst, List.map_cons, hrest1]
    · refine ⟨w :: vs, ?_⟩
      simp only [renderSteps, hw, hrest2]

theorem find?_notStarted_map_setInProgress (l : List FlowStep) :
    (l.map setInProgress).find? (fun s => decide (s.status = Status.notStarted)) = none := by
  induction l with
  | nil => rfl
  | cons s rest ih =>
    rw [List.map_cons, List.find?_cons_of_neg, ih]
    simp only [decide_eq_true_eq]
    exact status_setInProgress s

theorem renderFlow_of_safe (fs : Flows) (c : String) (fl : Flow)
    (h : lookupFlow fs c = some fl) (hsafe : fl.steps.all stepRenderSafe = true) :
    (renderFlow fs c).1 =
      updFlow fs c (fun f2 => { f2 with steps := fl.steps.map setInProgress }) := by
  obtain ⟨hrs1, vs, hrs2⟩ := renderSteps_of_safe fl.steps hsafe
  unfold renderFlow
  rw [h]
  simp only [hrs2]
  simp only [hrs1]
  cases hst : fl.status with
  | done => rfl
  | aborted => rfl
  | notStarted =>
    by_cases had :
        ((fl.steps.map setInProgress).all (fun s => decide (s.status = Status.done))) = true
    · simp only [had, if_true]
      unfold renderNextStep
      rw [lookup_updFlow, if_pos rfl, h]
      simp only [Option.map_some']
      rw [find?_notStarted_map_setInProgress]
      by_cases hd2 : fl.status = Status.done <;> simp [hd2]
    · simp only [had, Bool.false_eq_true, if_false]
  | inProgress =>
    by_cases had :
        ((fl.steps.map setInProgress).all (fun s => decide (s.status = Status.done))) = true
    · simp only [had, if_true]
      unfold renderNextStep
      rw [lookup_updFlow, if_pos rfl, h]
      simp only [Option.map_some']
      rw [find?_notStarted_map_setInProgress]
      by_cases hd2 : fl.status = Status.done <;> simp [hd2]
    · simp only [had, Bool.false_eq_true, if_false]

/-- C10 counterexample: rendering is not guaranteed to reach every step.
In a reachable registry (flow created, step s1 created, timeout pass, POST
to s1 — which leaves s1 `done` with a rejected promise — then step s2
created), a GET of the flow throws while rendering s1 and stops, so the
`not-started` step s2 is NOT set to `in-progress`. -/
theorem c10_get_render_partial_cex :
    stepStatusIn lateStepReg "c" "s2" = some Status.notStarted ∧
    stepStatusIn ((endpoint lateStepReg "GET" "/flow/c" none).1) "c" "s2" =
      some Status.notStarted ∧
    (endpoint lateStepReg "GET" "/flow/c" none).2 = Response.thrown := by
  decide

/-- C10 amended: a GET of a known flow is not read-only.  Provided every
`done` step of the flow holds a fulfilled promise (so rendering completes),
the request rewrites the flow's step sequence pointwise with
`setInProgress` — status `not-started` becomes `in-progress`, any other
step is returned unchanged — and changes nothing else: the flow's title and
status are untouched and every other registry entry is unchanged.  When
some `done` step holds a rejected promise the render throws partway instead
(see the counterexample). -/
theorem c10_get_mutates_exactly_render (fs : Flows) (pa c : String) (fl : Flow)
    (h1 : strStartsWith pa "/flow/" = true)
    (h2 : (pathSegs pa).get? 0 = some c)
    (h3 : lookupFlow fs c = some fl)
    (h4 : fl.steps.all stepRenderSafe = true) :
    ∃ fl2, lookupFlow ((endpoint fs "GET" pa none).1) c = some fl2 ∧
      fl2.title = fl.title ∧ fl2.status = fl.status ∧
      fl2.steps = fl.steps.map setInProgress ∧
      (∀ c2, c2 ≠ c → lookupFlow ((endpoint fs "GET" pa none).1) c2 = lookupFlow fs c2) := by
  have hend : (endpoint fs "GET" pa none).1 =
      updFlow fs c (fun f2 => { f2 with steps := fl.steps.map setInProgress }) := by
    unfold endpoint
    rw [if_neg (by simp)]
    rw [if_pos (by rw [h1]; rfl)]
    unfold getFlow
    rw [h2]
    simp only []
    rw [if_pos (containsFlow_of_lookup fs c fl h3)]
    exact renderFlow_of_safe fs c fl h3 h4
  rw [hend]
  refine ⟨{ fl with steps := fl.steps.map setInProgress }, ?_, rfl, rfl, rfl, ?_⟩
  · rw [lookup_updFlow, if_pos rfl, h3]
    rfl
  · intro c2 hne
    rw [lookup_updFlow, if_neg hne]

/-- C10 amended witness: on a concrete pending flow the GET flips the
pending step to `in-progress` and nothing else. -/
theorem c10_get_mutates_exactly_render_witness :
    ∃ fl2, lookupFlow ((endpoint oneStepReg "GET" "/flow/c" none).1) "c" = some fl2 ∧
      fl2.title = "T" ∧ fl2.status = Status.notStarted ∧
      fl2.steps = [mkInputStep "s1" "Name"].map setInProgress ∧
      (∀ c2, c2 ≠ "c" →
        lookupFlow ((endpoint oneStepReg "GET" "/flow/c" none).1) c2 =
          lookupFlow oneStepReg c2) :=
  c10_get_mutates_exactly_render oneStepReg "/flow/c" "c"
    { title := "T", status := Status.notStarted, steps := [mkInputStep "s1" "Name"] }
    (by decide) (by decide) (by decide) (by decide)

end Prompts
